import Mathlib

/-
Verification development for the Business_sales_analysis dashboard core
(src/app.py).  The core logic is embedded shallowly:

* a cleaned data row (`Row`) carries the four required columns and the
  optional `Order Date` column (dates modelled as integers, numerics as
  exact rationals);
* `format_money` (app.py lines 7-12) is embedded over rationals, with
  Python's fixed-point float formatting modelled as exact decimal
  rounding half-to-even (`roundHalfEven`, `fmtFixed0`, `fmtFixed1`);
* the filter (lines 66-72) becomes `filtered_df`;
* the pandas group-by aggregations (lines 110-112, 124, 131, 145) become
  `total_sales`/`total_profit`/`total_orders`, `sales_trend`,
  `category_sales` and `region_sales`.  A pandas `groupby(k)[c].sum()`
  yields one entry per distinct key, keys sorted ascending
  (`groupby_sum`); `sort_values(by, ascending=False)` is modelled the way
  pandas `nargsort` computes it: reverse the input, argsort it ascending
  (`sortBy`, an insertion sort) and reverse the result.  numpy's default
  `kind='quicksort'` argsort is not stable, so the model's order among
  entries with equal summed sales is not a guarantee of the program, and
  no proved theorem depends on that order (the group-by itself always
  sorts distinct keys, where every correct sort agrees);
* load-and-clean (lines 41-44) becomes `load_clean`: drop incomplete
  rows, then parse the whole `Order Date` column, aborting with a parse
  error if any value fails to parse (as `pd.to_datetime` raises).
-/

/-- A cleaned data row: `Category`, `Region`, `Sales`, `Profit` and the
(optional) `Order Date` column, dates as integers. -/
structure Row where
  category : String
  region : String
  sales : ℚ
  profit : ℚ
  orderDate : Int
deriving DecidableEq

/-- A raw input row before cleaning: any cell may be missing, and the raw
`Order Date` cell is unparsed text. -/
structure RawRow where
  category : Option String
  region : Option String
  sales : Option ℚ
  profit : Option ℚ
  orderDate : Option String
deriving DecidableEq

/-- Errors of the load step.  `pd.to_datetime` (app.py line 44) raises on a
value it cannot interpret as a date. -/
inductive LoadError where
  | parseError
deriving DecidableEq

/-- The user's filter selection (app.py lines 48-56): chosen categories,
chosen regions and the optional inclusive date range. -/
structure Selection where
  categories : List String
  regions : List String
  dateRange : Option (Int × Int)
deriving DecidableEq

/-- Round half to even, the rounding used by Python's fixed-point float
formatting (modelled exactly over the rationals). -/
def roundHalfEven (q : ℚ) : Int :=
  if q - ⌊q⌋ < 1/2 then ⌊q⌋
  else if (1:ℚ)/2 < q - ⌊q⌋ then ⌊q⌋ + 1
  else if Even ⌊q⌋ then ⌊q⌋ else ⌊q⌋ + 1

/-- Python `f"{q:.0f}"`: the sign of the value followed by the rounded
magnitude with no decimals. -/
def fmtFixed0 (q : ℚ) : String :=
  if q < 0 then "-" ++ toString (roundHalfEven |q|)
  else toString (roundHalfEven |q|)

/-- Decimal digits of a nonnegative rational rendered to one decimal
place, rounding half to even. -/
def digits1 (q : ℚ) : String :=
  toString (roundHalfEven (q * 10) / 10) ++ "." ++ toString (roundHalfEven (q * 10) % 10)

/-- Python `f"{q:.1f}"`: the sign of the value followed by the magnitude
rendered to one decimal place. -/
def fmtFixed1 (q : ℚ) : String :=
  if q < 0 then "-" ++ digits1 |q| else digits1 |q|

/-- app.py lines 7-12: compact money formatting. -/
def format_money (val : ℚ) : String :=
  if val ≥ 1000000 then "$" ++ fmtFixed1 (val / 1000000) ++ "M"
  else if val ≥ 1000 then "$" ++ fmtFixed1 (val / 1000) ++ "K"
  else "$" ++ fmtFixed0 val

/-- The formatting rule as the specification words it: `$<v/1e6 to 1
decimal>M` when `v ≥ 1,000,000`, else `$<v/1e3 to 1 decimal>K` when
`v ≥ 1,000`, else `$<v rounded to the nearest integer>`. -/
def format_money_spec (val : ℚ) : String :=
  if val ≥ 1000000 then "$" ++ fmtFixed1 (val / 1000000) ++ "M"
  else if val ≥ 1000 then "$" ++ fmtFixed1 (val / 1000) ++ "K"
  else "$" ++ toString (roundHalfEven val)

/-- Insert into a sorted list, before the first element not below `x`;
the building block of an insertion sort. -/
def insertBy (le : α → α → Bool) (x : α) : List α → List α
  | [] => [x]
  | y :: ys => if le x y then x :: y :: ys else y :: insertBy le x ys

/-- Insertion sort, the ascending argsort the pandas orderings are built
from.  It is used on the distinct group-by keys, where any correct sort
agrees; only the descending `Sales` sort can see equal keys, whose order
under numpy's unstable default quicksort the model does not claim to
reproduce — no theorem below relies on the order of ties. -/
def sortBy (le : α → α → Bool) : List α → List α
  | [] => []
  | x :: xs => insertBy le x (sortBy le xs)

/-- One pandas `groupby(key)['Sales'].sum()` (sort=True, the default):
one entry per distinct key value present, keys sorted ascending, each
paired with the sum of `Sales` over its rows. -/
def groupby_sum [DecidableEq α] (le : α → α → Bool) (key : Row → α) (df : List Row) :
    List (α × ℚ) :=
  (sortBy le (df.map key).dedup).map
    (fun k => (k, ((df.filter (fun r => decide (key r = k))).map Row.sales).sum))

/-- app.py lines 66-72: keep the rows whose category and region are in the
selection, then (when a full date range is picked) the rows whose date
lies in the inclusive range. -/
def filtered_df (df : List Row) (sel : Selection) : List Row :=
  let base := df.filter
    (fun r => sel.categories.contains r.category && sel.regions.contains r.region)
  match sel.dateRange with
  | some se => base.filter (fun r => decide (se.1 ≤ r.orderDate) && decide (r.orderDate ≤ se.2))
  | none => base

/-- The combined row predicate the filter applies. -/
def selPred (sel : Selection) (r : Row) : Bool :=
  (sel.categories.contains r.category && sel.regions.contains r.region) &&
    (match sel.dateRange with
     | some se => decide (se.1 ≤ r.orderDate) && decide (r.orderDate ≤ se.2)
     | none => true)

/-- app.py line 110: `filtered_df['Sales'].sum()`. -/
def total_sales (df : List Row) : ℚ := (df.map Row.sales).sum

/-- app.py line 111: `filtered_df['Profit'].sum()`. -/
def total_profit (df : List Row) : ℚ := (df.map Row.profit).sum

/-- app.py line 112: `len(filtered_df)`. -/
def total_orders (df : List Row) : Nat := df.length

/-- app.py line 124: `filtered_df.groupby('Order Date')['Sales'].sum()`. -/
def sales_trend (df : List Row) : List (Int × ℚ) :=
  groupby_sum (fun a b => decide (a ≤ b)) Row.orderDate df

/-- app.py line 131: `groupby('Category')['Sales'].sum()` followed by
`sort_values(by='Sales', ascending=False)`.  The descending sort follows
pandas `nargsort` for `ascending=False`: reverse the input, argsort it
ascending by `Sales`, reverse the result.  The argsort is modelled by an
insertion sort; numpy's default `kind='quicksort'` argsort is unstable
and may order runs of equal summed sales differently, so the relative
order of ties in this model is not a program guarantee, and the facts
proved about `category_sales` (emptiness on the empty input, the sum
over all entries) are invariant under any permutation of ties. -/
def category_sales (df : List Row) : List (String × ℚ) :=
  (sortBy (fun a b => decide (a.2 ≤ b.2))
    ((groupby_sum (fun a b => decide (a ≤ b)) Row.category df).reverse)).reverse

/-- app.py line 145: `filtered_df.groupby('Region')['Sales'].sum()`. -/
def region_sales (df : List Row) : List (String × ℚ) :=
  groupby_sum (fun a b => decide (a ≤ b)) Row.region df

/-- app.py line 42: `df.dropna()` keeps the rows with no missing cell
(the date cell only counts when the column exists). -/
def RawRow.complete (hasDate : Bool) (r : RawRow) : Bool :=
  r.category.isSome && r.region.isSome && r.sales.isSome && r.profit.isSome &&
    (!hasDate || r.orderDate.isSome)

/-- Build a cleaned row from a complete raw row and its parsed date. -/
def RawRow.toRow (r : RawRow) (d : Int) : Row :=
  { category := r.category.getD "", region := r.region.getD "",
    sales := r.sales.getD 0, profit := r.profit.getD 0, orderDate := d }

/-- app.py line 44: `pd.to_datetime` over the whole `Order Date` column;
the first value that fails to parse makes the whole conversion fail. -/
def parseDates (parseDate : String → Option Int) : List RawRow → Option (List Row)
  | [] => some []
  | r :: rs =>
    match (r.orderDate.bind parseDate) with
    | none => none
    | some d => (parseDates parseDate rs).map (fun rest => r.toRow d :: rest)

/-- app.py lines 41-44: load, drop incomplete rows, then parse the date
column when present; an unparseable date aborts the whole load. -/
def load_clean (parseDate : String → Option Int) (hasDate : Bool) (raw : List RawRow) :
    Except LoadError (List Row) :=
  let cleaned := raw.filter (RawRow.complete hasDate)
  if hasDate then
    match parseDates parseDate cleaned with
    | some rows => Except.ok rows
    | none => Except.error LoadError.parseError
  else
    Except.ok (cleaned.map (fun r => r.toRow 0))

/-- The per-session state the script keeps: the loaded dataset and the
derived filtered dataset (app.py lines 41, 66, 74). -/
structure SessionState where
  df : List Row
  filtered : List Row
deriving DecidableEq

/-- app.py lines 66-74: recompute the filtered dataset from the loaded
dataset and the current selection; the loaded dataset is not written. -/
def applyFilterStep (s : SessionState) (sel : Selection) : SessionState :=
  { df := s.df, filtered := filtered_df s.df sel }

theorem insertBy_perm (le : α → α → Bool) (x : α) (l : List α) :
    (insertBy le x l).Perm (x :: l) := by
  induction l with
  | nil => exact List.Perm.refl _
  | cons y ys ih =>
    by_cases h : le x y = true
    · simp [insertBy, h]
    · rw [insertBy, if_neg h]
      exact (ih.cons y).trans (List.Perm.swap x y ys)

theorem sortBy_perm (le : α → α → Bool) (l : List α) : (sortBy le l).Perm l := by
  induction l with
  | nil => exact List.Perm.refl _
  | cons x xs ih =>
    exact (insertBy_perm le x (sortBy le xs)).trans (ih.cons x)

theorem insertBy_pairwise {le : α → α → Bool} {Q : α → α → Prop}
    (htot : ∀ a b, le a b = true ∨ le b a = true)
    (htr : ∀ a b c, le a b = true → le b c = true → le a c = true)
    {x : α} {l : List α}
    (hl : l.Pairwise (fun a b => le a b = true ∧ (le b a = true → Q a b)))
    (hx : ∀ y ∈ l, Q x y) :
    (insertBy le x l).Pairwise (fun a b => le a b = true ∧ (le b a = true → Q a b)) := by
  induction l with
  | nil => simp [insertBy]
  | cons y ys ih =>
    rcases List.pairwise_cons.mp hl with ⟨hy, hys⟩
    by_cases h : le x y = true
    · rw [insertBy, if_pos h]
      refine List.pairwise_cons.mpr ⟨?_, List.pairwise_cons.mpr ⟨hy, hys⟩⟩
      intro z hz
      rcases List.mem_cons.mp hz with rfl | hz'
      · exact ⟨h, fun _ => hx z (List.mem_cons_self _ _)⟩
      · exact ⟨htr x y z h (hy z hz').1, fun _ => hx z (List.mem_cons_of_mem _ hz')⟩
    · rw [insertBy, if_neg h]
      refine List.pairwise_cons.mpr
        ⟨?_, ih hys (fun z hz => hx z (List.mem_cons_of_mem _ hz))⟩
      intro z hz
      have hz2 : z = x ∨ z ∈ ys := by
        have := (insertBy_perm le x ys).mem_iff.mp hz
        simpa using this
      rcases hz2 with hzx | hz'
      · subst hzx
        rcases htot z y with hxy | hyx
        · exact absurd hxy h
        · exact ⟨hyx, fun hxy => absurd hxy h⟩
      · exact hy z hz'

theorem sortBy_pairwise {le : α → α → Bool} {Q : α → α → Prop}
    (htot : ∀ a b, le a b = true ∨ le b a = true)
    (htr : ∀ a b c, le a b = true → le b c = true → le a c = true)
    {l : List α} (hl : l.Pairwise Q) :
    (sortBy le l).Pairwise (fun a b => le a b = true ∧ (le b a = true → Q a b)) := by
  induction hl with
  | nil => simp [sortBy]
  | cons hx _ ih =>
    exact insertBy_pairwise htot htr ih
      (fun y hy => hx y ((sortBy_perm le _).mem_iff.mp hy))

theorem filtered_df_eq_filter (df : List Row) (sel : Selection) :
    filtered_df df sel = df.filter (selPred sel) := by
  cases hd : sel.dateRange with
  | none =>
    simp only [filtered_df, hd]
    apply List.filter_congr
    intro r _
    simp [selPred, hd]
  | some se =>
    simp only [filtered_df, hd, List.filter_filter]
    apply List.filter_congr
    intro r _
    simp only [selPred, hd]
    cases h1 : sel.categories.contains r.category <;>
      cases h2 : sel.regions.contains r.region <;>
      cases h3 : decide (se.1 ≤ r.orderDate) <;>
      cases h4 : decide (r.orderDate ≤ se.2) <;> rfl

/-- Claim C2: filtering is idempotent: applying the filter twice with the
same selection yields the same result as applying it once,
`Filter(Filter(D, S), S) == Filter(D, S)`. -/
theorem filter_idempotent (df : List Row) (sel : Selection) :
    filtered_df (filtered_df df sel) sel = filtered_df df sel := by
  simp only [filtered_df_eq_filter, List.filter_filter]
  apply List.filter_congr
  intro r _
  cases h : selPred sel r <;> simp [h]

/-- Claim C9: the filter is pure: recomputing the filtered dataset leaves
the loaded dataset unchanged, the filtered dataset is exactly the newly
derived value, and that value is a subsequence of the input (derived, not
mutated in place). -/
theorem filter_is_pure (s : SessionState) (sel : Selection) :
    (applyFilterStep s sel).df = s.df ∧
    (applyFilterStep s sel).filtered = filtered_df s.df sel ∧
    (filtered_df s.df sel).Sublist s.df := by
  refine ⟨rfl, rfl, ?_⟩
  rw [filtered_df_eq_filter]
  exact List.filter_sublist _

/-- Claim C3: filtering with a full selection is the identity: when every
row's category and region are in the selection (as they are when the
selection is the set of all values present) and the date range is absent
or contains every row's date (as the range from the minimum to the
maximum date does), the filter returns the dataset itself. -/
theorem filter_full_selection (df : List Row) (sel : Selection)
    (hcat : ∀ r ∈ df, sel.categories.contains r.category = true)
    (hreg : ∀ r ∈ df, sel.regions.contains r.region = true)
    (hdate : sel.dateRange = none ∨
      ∃ se : Int × Int, sel.dateRange = some se ∧
        ∀ r ∈ df, se.1 ≤ r.orderDate ∧ r.orderDate ≤ se.2) :
    filtered_df df sel = df := by
  rw [filtered_df_eq_filter]
  apply List.filter_eq_self.mpr
  intro r hr
  simp only [selPred, hcat r hr, hreg r hr, Bool.and_self, Bool.true_and]
  rcases hdate with h | ⟨se, hse, hb⟩
  · rw [h]
  · rw [hse]
    simp [(hb r hr).1, (hb r hr).2]

/-- Claim C3 witness: a concrete two-row dataset, the full selection and
the min-to-max date range, on which the filter is the identity. -/
theorem filter_full_selection_witness :
    filtered_df [⟨"A", "East", 100, 10, 0⟩, ⟨"B", "West", 200, -5, 1⟩]
        ⟨["A", "B"], ["East", "West"], some (0, 1)⟩
      = [⟨"A", "East", 100, 10, 0⟩, ⟨"B", "West", 200, -5, 1⟩] :=
  filter_full_selection _ _ (by decide) (by decide)
    (Or.inr ⟨(0, 1), rfl, by decide⟩)

/-- Claim C4: an empty category selection filters everything out, and all
the aggregates over the empty result are the zero/empty values, not
errors. -/
theorem empty_category_selection (df : List Row) (sel : Selection)
    (h : sel.categories = []) :
    filtered_df df sel = [] ∧
    total_sales (filtered_df df sel) = 0 ∧
    total_profit (filtered_df df sel) = 0 ∧
    total_orders (filtered_df df sel) = 0 ∧
    sales_trend (filtered_df df sel) = [] ∧
    category_sales (filtered_df df sel) = [] ∧
    region_sales (filtered_df df sel) = [] := by
  have hempty : filtered_df df sel = [] := by
    rw [filtered_df_eq_filter]
    apply List.filter_eq_nil_iff.mpr
    intro r _
    simp [selPred, h]
  rw [hempty]
  exact ⟨rfl, rfl, rfl, rfl, rfl, rfl, rfl⟩

/-- Claim C4 witness: the empty category selection on a concrete one-row
dataset. -/
theorem empty_category_selection_witness :
    filtered_df [⟨"A", "East", 100, 10, 0⟩] ⟨[], ["East"], none⟩ = [] ∧
    total_sales (filtered_df [⟨"A", "East", 100, 10, 0⟩] ⟨[], ["East"], none⟩) = 0 ∧
    total_profit (filtered_df [⟨"A", "East", 100, 10, 0⟩] ⟨[], ["East"], none⟩) = 0 ∧
    total_orders (filtered_df [⟨"A", "East", 100, 10, 0⟩] ⟨[], ["East"], none⟩) = 0 ∧
    sales_trend (filtered_df [⟨"A", "East", 100, 10, 0⟩] ⟨[], ["East"], none⟩) = [] ∧
    category_sales (filtered_df [⟨"A", "East", 100, 10, 0⟩] ⟨[], ["East"], none⟩) = [] ∧
    region_sales (filtered_df [⟨"A", "East", 100, 10, 0⟩] ⟨[], ["East"], none⟩) = [] :=
  empty_category_selection _ _ rfl

theorem sum_map_filter_split (p : Row → Bool) (df : List Row) :
    ((df.filter p).map Row.sales).sum + ((df.filter (fun r => !p r)).map Row.sales).sum
      = (df.map Row.sales).sum := by
  induction df with
  | nil => simp
  | cons r rs ih =>
    cases h : p r with
    | true => simp [List.filter_cons, h, add_assoc, ih]
    | false =>
      simp only [List.filter_cons, h, Bool.not_false, if_pos, if_neg, Bool.false_eq_true,
        not_false_eq_true, List.map_cons, List.sum_cons]
      rw [← ih]
      ring

theorem groupsum_eq_total {α : Type} [DecidableEq α] (key : Row → α) :
    ∀ K : List α, K.Nodup → ∀ df : List Row, (∀ r ∈ df, key r ∈ K) →
      (K.map (fun k => ((df.filter (fun r => decide (key r = k))).map Row.sales).sum)).sum
        = (df.map Row.sales).sum := by
  intro K
  induction K with
  | nil =>
    intro _ df hcov
    cases df with
    | nil => simp
    | cons r rs => exact absurd (hcov r (List.mem_cons_self r rs)) (List.not_mem_nil _)
  | cons k ks ih =>
    intro hnd df hcov
    rcases List.nodup_cons.mp hnd with ⟨hk, hnd'⟩
    have hrest : ∀ k' ∈ ks,
        (df.filter (fun r => decide (key r = k')))
          = ((df.filter (fun r => !decide (key r = k))).filter
              (fun r => decide (key r = k'))) := by
      intro k' hk'
      rw [List.filter_filter]
      apply List.filter_congr
      intro r _
      by_cases h : key r = k'
      · have hne : key r ≠ k := by
          intro he
          exact hk (by rw [show k = k' from he.symm.trans h]; exact hk')
        have hkk : ¬k' = k := fun he => hne (h.trans he)
        simp [h, hkk]
      · simp [h]
    have hcov' : ∀ r ∈ df.filter (fun r => !decide (key r = k)), key r ∈ ks := by
      intro r hr
      rcases List.mem_filter.mp hr with ⟨hrdf, hne⟩
      rcases List.mem_cons.mp (hcov r hrdf) with he | hin
      · exfalso
        simp [he] at hne
      · exact hin
    have ih' := ih hnd' (df.filter (fun r => !decide (key r = k))) hcov'
    have hsplit := sum_map_filter_split (fun r => decide (key r = k)) df
    simp only [List.map_cons, List.sum_cons]
    have hmapeq :
        List.map (fun k' => ((df.filter (fun r => decide (key r = k'))).map Row.sales).sum) ks
          = List.map (fun k' =>
              (((df.filter (fun r => !decide (key r = k))).filter
                  (fun r => decide (key r = k'))).map Row.sales).sum) ks :=
      List.map_congr_left (fun k' hk' => by rw [hrest k' hk'])
    rw [hmapeq, ih']
    exact hsplit

/-- Claim C5: summing the per-category sums of the Category Breakdown
over all categories gives exactly the Totals sum of `Sales` over the same
filtered input. -/
theorem category_breakdown_sum_eq_total (df : List Row) :
    ((category_sales df).map Prod.snd).sum = total_sales df := by
  unfold category_sales
  rw [List.map_reverse, List.sum_reverse]
  rw [((sortBy_perm (fun a b => decide (a.2 ≤ b.2))
      ((groupby_sum (fun a b => decide (a ≤ b)) Row.category df).reverse)).map Prod.snd).sum_eq]
  rw [List.map_reverse, List.sum_reverse]
  unfold groupby_sum
  rw [List.map_map]
  have hcomp :
      (Prod.snd ∘ fun k =>
          (k, ((df.filter (fun r => decide (Row.category r = k))).map Row.sales).sum))
        = fun k => ((df.filter (fun r => decide (Row.category r = k))).map Row.sales).sum :=
    rfl
  rw [hcomp]
  rw [((sortBy_perm (fun a b => decide (a ≤ b)) ((df.map Row.category).dedup)).map
      (fun k => ((df.filter (fun r => decide (Row.category r = k))).map Row.sales).sum)).sum_eq]
  exact groupsum_eq_total Row.category _ (List.nodup_dedup _) df
    (fun r hr => List.mem_dedup.mpr (List.mem_map.mpr ⟨r, hr, rfl⟩))

theorem sortBy_decide_pairwise {α : Type} [LinearOrder α] {Q : α → α → Prop}
    {l : List α} (hl : l.Pairwise Q) :
    (sortBy (fun a b => decide (a ≤ b)) l).Pairwise
      (fun a b => a ≤ b ∧ (b ≤ a → Q a b)) := by
  have h := @sortBy_pairwise _ (fun a b : α => decide (a ≤ b)) _
    (fun a b => by
      rcases le_total a b with h | h
      · exact Or.inl (decide_eq_true h)
      · exact Or.inr (decide_eq_true h))
    (fun a b c hab hbc =>
      decide_eq_true (le_trans (of_decide_eq_true hab) (of_decide_eq_true hbc)))
    _ hl
  exact h.imp (fun hab =>
    ⟨of_decide_eq_true hab.1, fun hba => hab.2 (decide_eq_true hba)⟩)

theorem sortBy_nodup_strict {α : Type} [LinearOrder α] {l : List α} (hl : l.Nodup) :
    (sortBy (fun a b => decide (a ≤ b)) l).Pairwise (fun a b => a < b) := by
  have h := @sortBy_decide_pairwise _ _ (fun a b : α => a ≠ b) _ hl
  refine h.imp ?_
  intro a b hab
  rcases le_or_lt b a with hba | hlt
  · exact lt_of_le_of_ne hab.1 (hab.2 hba)
  · exact hlt

/-- Claim C7: the Time Series has exactly one entry per distinct date
present in the filtered dataset, is sorted strictly ascending by date,
every entry's value is the sum of `Sales` over the rows of its date, and
there are no entries for absent dates (the membership is an iff: no
zero-filling of gaps). -/
theorem sales_trend_spec (df : List Row) :
    (sales_trend df).Pairwise (fun a b => a.1 < b.1) ∧
    (∀ d : Int, (∃ q, (d, q) ∈ sales_trend df) ↔ ∃ r ∈ df, r.orderDate = d) ∧
    (∀ p ∈ sales_trend df,
      p.2 = ((df.filter (fun r => decide (r.orderDate = p.1))).map Row.sales).sum) := by
  refine ⟨?_, ?_, ?_⟩
  · unfold sales_trend groupby_sum
    have h := sortBy_nodup_strict (List.nodup_dedup ((df.map Row.orderDate) : List Int))
    exact List.pairwise_map.mpr (h.imp (fun hab => hab))
  · intro d
    constructor
    · rintro ⟨q, hq⟩
      unfold sales_trend groupby_sum at hq
      rcases List.mem_map.mp hq with ⟨k, hk, hEq⟩
      have hkd : k = d := congrArg Prod.fst hEq
      subst hkd
      have hmem : k ∈ (df.map Row.orderDate).dedup := (sortBy_perm _ _).mem_iff.mp hk
      rcases List.mem_map.mp (List.mem_dedup.mp hmem) with ⟨r, hr, hrd⟩
      exact ⟨r, hr, hrd⟩
    · rintro ⟨r, hr, hrd⟩
      refine ⟨((df.filter (fun x => decide (Row.orderDate x = d))).map Row.sales).sum, ?_⟩
      unfold sales_trend groupby_sum
      apply List.mem_map.mpr
      refine ⟨d, ?_, rfl⟩
      apply (sortBy_perm _ _).mem_iff.mpr
      exact List.mem_dedup.mpr (List.mem_map.mpr ⟨r, hr, hrd⟩)
  · intro p hp
    unfold sales_trend groupby_sum at hp
    rcases List.mem_map.mp hp with ⟨k, _, rfl⟩
    rfl

theorem parseDates_eq_none_of_mem {pd : String → Option Int} {l : List RawRow} {r : RawRow}
    (hr : r ∈ l) (hbad : r.orderDate.bind pd = none) : parseDates pd l = none := by
  induction l with
  | nil => cases hr
  | cons a as ih =>
    rcases List.mem_cons.mp hr with rfl | h
    · simp [parseDates, hbad]
    · cases hx : a.orderDate.bind pd with
      | none => simp [parseDates, hx]
      | some d => simp [parseDates, hx, ih h]

/-- Claim C8: when the input has an `Order Date` column and some cleaned
row's date value cannot be parsed, the whole load fails with the parse
error; no dataset is produced, partial or otherwise. -/
theorem load_clean_aborts_on_unparseable_date (parseDate : String → Option Int)
    (raw : List RawRow) (r : RawRow)
    (hr : r ∈ raw.filter (RawRow.complete true))
    (hbad : r.orderDate.bind parseDate = none) :
    load_clean parseDate true raw = Except.error LoadError.parseError := by
  have h := parseDates_eq_none_of_mem hr hbad
  simp [load_clean, h]

/-- Claim C8 witness: a one-row file whose date cell no parse function
accepts makes the load abort with the parse error. -/
theorem load_clean_aborts_witness :
    load_clean (fun _ => none) true
        [⟨some "A", some "East", some 100, some 10, some "not-a-date"⟩]
      = Except.error LoadError.parseError :=
  load_clean_aborts_on_unparseable_date (fun _ => none) _
    ⟨some "A", some "East", some 100, some 10, some "not-a-date"⟩
    (by decide) rfl

theorem roundHalfEven_intCast (z : Int) : roundHalfEven (z : ℚ) = z := by
  unfold roundHalfEven
  rw [Int.floor_intCast, if_pos (by norm_num : (z:ℚ) - z < 1/2)]

theorem format_money_at_500 : format_money 500 = "$500" := by
  unfold format_money
  rw [if_neg (by norm_num : ¬(500:ℚ) ≥ 1000000), if_neg (by norm_num : ¬(500:ℚ) ≥ 1000)]
  unfold fmtFixed0
  rw [if_neg (by norm_num : ¬(500:ℚ) < 0)]
  rw [show |(500:ℚ)| = ((500:Int):ℚ) by norm_num, roundHalfEven_intCast]
  rfl

theorem format_money_at_1500 : format_money 1500 = "$1.5K" := by
  unfold format_money
  rw [if_neg (by norm_num : ¬(1500:ℚ) ≥ 1000000), if_pos (by norm_num : (1500:ℚ) ≥ 1000)]
  unfold fmtFixed1
  rw [if_neg (by norm_num : ¬(1500:ℚ)/1000 < 0)]
  unfold digits1
  rw [abs_of_nonneg (by norm_num : (0:ℚ) ≤ (1500:ℚ)/1000)]
  rw [show (1500:ℚ)/1000 * 10 = ((15:Int):ℚ) by norm_num, roundHalfEven_intCast]
  rfl

theorem format_money_at_2300000 : format_money 2300000 = "$2.3M" := by
  unfold format_money
  rw [if_pos (by norm_num : (2300000:ℚ) ≥ 1000000)]
  unfold fmtFixed1
  rw [if_neg (by norm_num : ¬(2300000:ℚ)/1000000 < 0)]
  unfold digits1
  rw [abs_of_nonneg (by norm_num : (0:ℚ) ≤ (2300000:ℚ)/1000000)]
  rw [show (2300000:ℚ)/1000000 * 10 = ((23:Int):ℚ) by norm_num, roundHalfEven_intCast]
  rfl

/-- Claim C6: for every non-negative monetary value the code's formatting
agrees with the specification's rule (`$<v/1e6 to 1 decimal>M` at a
million or more, `$<v/1e3 to 1 decimal>K` at a thousand or more, else
`$<v rounded to the nearest integer>`), and the spec's three examples
hold: `format_money 500 = "$500"`, `format_money 1500 = "$1.5K"` and
`format_money 2300000 = "$2.3M"`. -/
theorem format_money_matches_spec (v : ℚ) (h : 0 ≤ v) :
    format_money v = format_money_spec v ∧
    format_money 500 = "$500" ∧
    format_money 1500 = "$1.5K" ∧
    format_money 2300000 = "$2.3M" := by
  refine ⟨?_, format_money_at_500, format_money_at_1500, format_money_at_2300000⟩
  unfold format_money format_money_spec
  split_ifs
  · rfl
  · rfl
  · unfold fmtFixed0
    rw [if_neg (not_lt.mpr h), abs_of_nonneg h]

/-- Claim C6 witness: the theorem applied at the concrete value 500. -/
theorem format_money_matches_spec_witness :
    (0:ℚ) ≤ 500 ∧
    (format_money 500 = format_money_spec 500 ∧
      format_money 500 = "$500" ∧
      format_money 1500 = "$1.5K" ∧
      format_money 2300000 = "$2.3M") :=
  ⟨by decide, format_money_matches_spec 500 (by decide)⟩

/-- Claim C10: every value below 1,000 — negative values of any magnitude
included — falls through the M and K branches and is rendered as `$`
followed by the value formatted with 0 decimal places; in particular
`format_money (-5000000) = "$-5000000"`, with no K or M suffix. -/
theorem format_money_below_1000 (v : ℚ) (h : v < 1000) :
    format_money v = "$" ++ fmtFixed0 v ∧
    format_money (-5000000) = "$-5000000" := by
  constructor
  · unfold format_money
    rw [if_neg (not_le.mpr (lt_trans h (by norm_num))), if_neg (not_le.mpr h)]
  · unfold format_money
    rw [if_neg (by norm_num : ¬(-5000000:ℚ) ≥ 1000000),
      if_neg (by norm_num : ¬(-5000000:ℚ) ≥ 1000)]
    unfold fmtFixed0
    rw [if_pos (by norm_num : (-5000000:ℚ) < 0)]
    rw [show |(-5000000:ℚ)| = ((5000000:Int):ℚ) by norm_num, roundHalfEven_intCast]
    rfl

/-- Claim C10 witness: the theorem applied at the concrete value
-5,000,000 itself. -/
theorem format_money_below_1000_witness :
    (-5000000:ℚ) < 1000 ∧
    (format_money (-5000000) = "$" ++ fmtFixed0 (-5000000) ∧
      format_money (-5000000) = "$-5000000") :=
  ⟨by decide, format_money_below_1000 (-5000000) (by decide)⟩

/-- Model validation on the specification's end-to-end example: with rows
(A, East, 100) and (B, West, 200) the Category Breakdown is
[(B, 200), (A, 100)], descending by summed Sales. -/
theorem category_sales_example_distinct :
    category_sales [⟨"A", "East", 100, 10, 0⟩, ⟨"B", "West", 200, -5, 1⟩]
      = [("B", 200), ("A", 100)] := by
  have hab : ¬ ("A":String) = "B" := by decide
  have hba : ¬ ("B":String) = "A" := by decide
  norm_num [hab, hba, category_sales, groupby_sum, sortBy, insertBy, List.dedup,
    List.pwFilter, List.filter_cons, List.filter_nil]

/-- Model validation on the specification's end-to-end example: the Time
Series lists the two dates ascending with their summed Sales. -/
theorem sales_trend_example :
    sales_trend [⟨"A", "East", 100, 10, 0⟩, ⟨"B", "West", 200, -5, 1⟩]
      = [(0, 100), (1, 200)] := by
  norm_num [sales_trend, groupby_sum, sortBy, insertBy, List.dedup,
    List.pwFilter, List.filter_cons, List.filter_nil]
